import Mathlib

/-!  Shallow embedding of the transactional ledger store implemented in
`src-tauri/src/main.rs` of contabilidad-ia-desktop, together with proofs
checking the specification's claims against it.

The in-memory collection (`Vec<Transaction>` behind a `Mutex`) is modelled as
a `List Transaction`.  Environment effects are explicit inputs: the uuid
produced by `uuid::Uuid::new_v4()`, the clock reading `Utc::now().timestamp()`
and the outcome of `save_transactions_to_file` are parameters of each command,
and every command returns the value sent to the frontend, the collection after
the command, and the snapshot handed to the save routine (if any).  -/

namespace Contabilidad

/-- Model of Rust `f64` amounts: every finite double is an exact rational;
`nan` models the IEEE NaN, for which every ordered comparison is false.
(Infinities play no role in the claims and are omitted.) -/
inductive F64 where
  | nan : F64
  | fin : ℚ → F64
deriving DecidableEq

/-- IEEE `<=` on the modelled doubles: false whenever an operand is NaN. -/
def F64.le : F64 → F64 → Bool
  | .fin a, .fin b => decide (a ≤ b)
  | _, _ => false

/-- IEEE `<` on the modelled doubles: false whenever an operand is NaN. -/
def F64.lt : F64 → F64 → Bool
  | .fin a, .fin b => decide (a < b)
  | _, _ => false

/-- Rust `str::trim` on the character list: drop leading and trailing
whitespace. -/
def trimChars (l : List Char) : List Char :=
  List.rdropWhile Char.isWhitespace (List.dropWhile Char.isWhitespace l)

/-- Rust `str::trim` as used in the source (`s.trim()`). -/
def strTrim (s : String) : String :=
  String.mk (trimChars s.data)

/-- `enum TransactionType { Ingreso, Gasto }`. -/
inductive TransactionType where
  | Ingreso : TransactionType
  | Gasto : TransactionType
deriving DecidableEq

/-- `struct Transaction` of the source.  `timestamp : u64` is modelled as a
natural number. -/
structure Transaction where
  id : String
  transaction_type : TransactionType
  amount : F64
  description : String
  store_name : String
  timestamp : Nat
deriving DecidableEq

/-- The in-memory collection held by `AppState.transactions`. -/
abbrev Ledger := List Transaction

/-- The reserved UI sentinel category, `"Todas las Tiendas"` in the source
(the spec calls it "All Categories"). -/
def sentinelStore : String := "Todas las Tiendas"

deriving instance DecidableEq for Except

/-- Outcome of one command execution: the value returned to the frontend, the
in-memory collection after the command, and the snapshot passed to
`save_transactions_to_file` (`none` when the command never called save). -/
structure CmdResult (α : Type) where
  result : Except String α
  state : Ledger
  saved : Option Ledger
deriving DecidableEq

/-- Persist-after-mutate tail shared by every mutating command: the in-memory
state is already `st`; the environment's answer for
`save_transactions_to_file` is `sres`, and its error is forwarded verbatim. -/
def applySave {α : Type} (x : α) (st : Ledger) (sres : Except String Unit) :
    CmdResult α :=
  match sres with
  | .ok _ => ⟨.ok x, st, some st⟩
  | .error e => ⟨.error e, st, some st⟩

def errInvalidType : String := "Tipo de transacción inválido"

def errNonPositive : String := "El monto debe ser positivo."

def errEmptyFields : String :=
  "La descripción y el nombre de la tienda no pueden estar vacíos."

def errTxNotFound (id : String) : String :=
  "Transacción con ID " ++ id ++ " no encontrada."

def errEmptyStoreNames : String :=
  "Los nombres de tienda no pueden estar vacíos."

def errRenameSentinel : String :=
  "No se puede renombrar \x27Todas las Tiendas\x27."

def errSameStoreName : String :=
  "El nuevo nombre de la tienda es el mismo que el anterior."

def errStoreNotFoundRename (s : String) : String :=
  "Tienda \x27" ++ s ++ "\x27 no encontrada o sin transacciones para renombrar."

def errEmptyStoreName : String :=
  "El nombre de tienda no puede estar vacío."

def errDeleteSentinel : String :=
  "No se puede eliminar \x27Todas las Tiendas\x27."

def errStoreNotFoundDelete (s : String) : String :=
  "Tienda \x27" ++ s ++ "\x27 no encontrada o sin transacciones para eliminar."

/-- The `match transaction_type_str.as_str()` at the top of the add and
update commands. -/
def parseTransactionType (s : String) : Option TransactionType :=
  if s = "Ingreso" then some .Ingreso
  else if s = "Gasto" then some .Gasto
  else none

/-- `get_all_transactions`: returns a clone of the collection, never fails. -/
def get_all_transactions (st : Ledger) : Except String Ledger :=
  .ok st

/-- `add_transaction_command`.  The fresh uuid `newId`, the clock reading
`now` and the save outcome `sres` are environment inputs. -/
def add_transaction_command (st : Ledger) (transaction_type_str : String)
    (amount : F64) (description store_name : String)
    (newId : String) (now : Nat) (sres : Except String Unit) :
    CmdResult Transaction :=
  match parseTransactionType transaction_type_str with
  | none => ⟨.error errInvalidType, st, none⟩
  | some tt =>
    if F64.le amount (F64.fin 0) then ⟨.error errNonPositive, st, none⟩
    else if strTrim description = "" ∨ strTrim store_name = "" then
      ⟨.error errEmptyFields, st, none⟩
    else
      let newTx : Transaction :=
        ⟨newId, tt, amount, strTrim description, strTrim store_name, now⟩
      applySave newTx (st ++ [newTx]) sres

/-- The in-place field replacement performed on the record found by the
update command. -/
def updateFields (tt : TransactionType) (amount : F64) (d s : String)
    (t : Transaction) : Transaction :=
  { t with transaction_type := tt, amount := amount,
           description := d, store_name := s }

/-- `iter().position(|t| ...)` followed by an in-place update of the found
element: returns the updated element and the updated list, or `none`. -/
def updateFirst (p : Transaction → Bool) (f : Transaction → Transaction) :
    Ledger → Option (Transaction × Ledger)
  | [] => none
  | t :: ts =>
    if p t then some (f t, f t :: ts)
    else
      match updateFirst p f ts with
      | none => none
      | some (u, ts') => some (u, t :: ts')

/-- `update_transaction_command`. -/
def update_transaction_command (st : Ledger) (id transaction_type_str : String)
    (amount : F64) (description store_name : String)
    (sres : Except String Unit) : CmdResult Transaction :=
  match parseTransactionType transaction_type_str with
  | none => ⟨.error errInvalidType, st, none⟩
  | some tt =>
    if F64.le amount (F64.fin 0) then ⟨.error errNonPositive, st, none⟩
    else if strTrim description = "" ∨ strTrim store_name = "" then
      ⟨.error errEmptyFields, st, none⟩
    else
      match updateFirst (fun t => t.id == id)
          (updateFields tt amount (strTrim description) (strTrim store_name))
          st with
      | none => ⟨.error (errTxNotFound id), st, none⟩
      | some (u, st') => applySave u st' sres

/-- `delete_transaction_command`: `retain(|t| t.id != id)` and save only when
the length shrank. -/
def delete_transaction_command (st : Ledger) (id : String)
    (sres : Except String Unit) : CmdResult Unit :=
  let st' := st.filter (fun t => t.id != id)
  if st'.length < st.length then applySave () st' sres
  else ⟨.error (errTxNotFound id), st', none⟩

/-- Lexicographic comparison of character lists by codepoint, the order
underlying Rust's `String: Ord` (UTF-8 byte order coincides with codepoint
order). -/
def charsLe : List Char → List Char → Bool
  | [], _ => true
  | _ :: _, [] => false
  | a :: as, b :: bs =>
    if a.toNat < b.toNat then true
    else if b.toNat < a.toNat then false
    else charsLe as bs

/-- Rust's total order on `String`, as a Boolean `≤`. -/
def strLe (a b : String) : Bool := charsLe a.data b.data

/-- Insertion into a `strLe`-sorted list. -/
def insertSorted (x : String) : List String → List String
  | [] => [x]
  | y :: ys => if strLe x y then x :: y :: ys else y :: insertSorted x ys

/-- Insertion sort by `strLe`, modelling `sort_unstable` on `Vec<String>`. -/
def sortStrings : List String → List String
  | [] => []
  | x :: xs => insertSorted x (sortStrings xs)

/-- `get_unique_stores`: the set of store names plus the sentinel, as a sorted
list.  The `HashSet` is modelled by deduplication. -/
def get_unique_stores (st : Ledger) : List String :=
  sortStrings ((sentinelStore :: st.map Transaction.store_name).dedup)

/-- `get_store_info_command`: the returned `HashMap<String, usize>` is
modelled as its counting function (a key absent from the map has count 0). -/
def get_store_info_command (st : Ledger) (store : String) : Nat :=
  st.countP (fun t => t.store_name == store)

/-- `rename_store_command`. -/
def rename_store_command (st : Ledger)
    (old_store_name new_store_name : String)
    (sres : Except String Unit) : CmdResult Unit :=
  let o := strTrim old_store_name
  let n := strTrim new_store_name
  if o = "" ∨ n = "" then ⟨.error errEmptyStoreNames, st, none⟩
  else if o = sentinelStore then ⟨.error errRenameSentinel, st, none⟩
  else if o = n then ⟨.error errSameStoreName, st, none⟩
  else
    let st' := st.map (fun t =>
      if t.store_name = o then { t with store_name := n } else t)
    let renamed_count := st.countP (fun t => t.store_name == o)
    if 0 < renamed_count then applySave () st' sres
    else ⟨.error (errStoreNotFoundRename o), st', none⟩

/-- `delete_store_command`. -/
def delete_store_command (st : Ledger) (store_name : String)
    (sres : Except String Unit) : CmdResult Unit :=
  let s := strTrim store_name
  if s = "" then ⟨.error errEmptyStoreName, st, none⟩
  else if s = sentinelStore then ⟨.error errDeleteSentinel, st, none⟩
  else
    let st' := st.filter (fun t => t.store_name != s)
    if st'.length < st.length then applySave () st' sres
    else ⟨.error (errStoreNotFoundDelete s), st', none⟩

/-- The observable content of the data file, as far as
`load_transactions_from_file` is concerned: absent, unreadable, or readable
with a given serde parse result (JSON decoding itself is not modelled). -/
inductive FileRead where
  | absent : FileRead
  | readError (e : String) : FileRead
  | parsed (r : Except String (List Transaction)) : FileRead

/-- `load_transactions_from_file`: an absent file yields `Ok(Vec::new())`;
read and parse failures yield the corresponding error strings. -/
def load_transactions_from_file : FileRead → Except String (List Transaction)
  | .absent => .ok []
  | .readError e => .error ("Error al leer archivo de datos: " ++ e)
  | .parsed (.ok ts) => .ok ts
  | .parsed (.error e) =>
      .error ("Error al parsear datos de transacciones: " ++ e)

/-- The sample transaction seeded by `main` when the loaded collection is
empty; its uuid and timestamp are environment inputs. -/
def testTransaction (seedId : String) (seedTime : Nat) : Transaction :=
  ⟨seedId, .Ingreso, .fin 10, "Transacción inicial de prueba (Rust)",
   "Tienda de Prueba (Rust)", seedTime⟩

/-- The `initial_transactions` binding in `main`: a failed load falls back to
`Vec::new()`. -/
def initial_transactions (fr : FileRead) : List Transaction :=
  match load_transactions_from_file fr with
  | .ok t => t
  | .error _ => []

/-- The collection placed in `AppState` by `main`: when the loaded collection
is empty, one sample transaction is pushed first. -/
def startup_state (fr : FileRead) (seedId : String) (seedTime : Nat) :
    Ledger :=
  let init := initial_transactions fr
  if init.isEmpty then [testTransaction seedId seedTime] else init

/-- States of the shared collection reachable from `init` by any sequence of
mutating commands.  The uuid oracle of `create` is modelled as supplying
fresh identifiers, per the spec ("generates a fresh unique id"); all other
environment inputs are arbitrary. -/
inductive Reachable (init : Ledger) : Ledger → Prop where
  | refl : Reachable init init
  | create {st : Ledger} (tts : String) (amount : F64)
      (d sn newId : String) (now : Nat) (sres : Except String Unit)
      (h : Reachable init st) (hfresh : newId ∉ st.map Transaction.id) :
      Reachable init
        (add_transaction_command st tts amount d sn newId now sres).state
  | update {st : Ledger} (id tts : String) (amount : F64) (d sn : String)
      (sres : Except String Unit) (h : Reachable init st) :
      Reachable init
        (update_transaction_command st id tts amount d sn sres).state
  | delete {st : Ledger} (id : String) (sres : Except String Unit)
      (h : Reachable init st) :
      Reachable init (delete_transaction_command st id sres).state
  | rename {st : Ledger} (o n : String) (sres : Except String Unit)
      (h : Reachable init st) :
      Reachable init (rename_store_command st o n sres).state
  | deleteStore {st : Ledger} (sn : String) (sres : Except String Unit)
      (h : Reachable init st) :
      Reachable init (delete_store_command st sn sres).state

/-- Decimal digit character for `n < 10`. -/
def digitChar (n : Nat) : Char := Char.ofNat (48 + n)

/-- Fueled most-significant-first decimal digit expansion; the fuel `n + 1`
always suffices. -/
def natDigitsAux : Nat → Nat → List Char → List Char
  | 0, _, acc => acc
  | fuel + 1, n, acc =>
    if n < 10 then digitChar n :: acc
    else natDigitsAux fuel (n / 10) (digitChar (n % 10) :: acc)

/-- Decimal digit string of a natural number (`"0"` for 0). -/
def natDigits (n : Nat) : List Char := natDigitsAux (n + 1) n []

/-- The fixed two-digit fractional part printed by `format!("\x7b:.2\x7d", _)`,
for `f < 100`. -/
def twoDigits (f : Nat) : List Char := [digitChar (f / 10), digitChar (f % 10)]

/-- The exact value `q * 100` rounded to the nearest integer, ties to even:
the rounding performed by Rust's `format!("\x7b:.2\x7d", q)` on the exact
value of a finite double.  Computed on numerator and denominator so that it
kernel-reduces. -/
def roundHalfEvenCents (q : ℚ) : ℤ :=
  let N : ℤ := q.num * 100
  let D : ℤ := (q.den : ℤ)
  let f : ℤ := N.fdiv D
  let r : ℤ := N - f * D
  if 2 * r < D then f
  else if D < 2 * r then f + 1
  else if f % 2 = 0 then f else f + 1

/-- The thousands-separator loop of `format_currency_es_ea_command`: the
digits arrive reversed with their enumeration index `i`, and each step
prepends the character (preceded by `'.'` when `i > 0 ∧ i % 3 = 0`) to the
accumulated front. -/
def revLoop (acc : List Char) (i : Nat) : List Char → List Char
  | [] => acc
  | c :: rest =>
    revLoop (c :: (if 0 < i ∧ i % 3 = 0 then '.' :: acc else acc)) (i + 1) rest

/-- `formatted_integer` in the source: run the separator loop over the
reversed digit string. -/
def groupChars (l : List Char) : List Char := revLoop [] 0 l.reverse

/-- `format_currency_es_ea_command`.  The amount is the exact rational value
of the finite double argument. -/
def format_currency_es_ea_command (amount : ℚ) : String :=
  let cents : ℤ := roundHalfEvenCents |amount|
  let n : ℕ := cents.toNat
  let integer_part : List Char := natDigits (n / 100)
  let decimal_part : List Char := twoDigits (n % 100)
  let formatted_integer := groupChars integer_part
  let final_string := formatted_integer ++ ',' :: decimal_part
  String.mk (if amount < 0 then '-' :: final_string else final_string)

/-- Modelled from the spec: "group the integer part into runs of three digits
from the right using `.` as separator" — split the last three digits off,
recurse on the rest. -/
def groupFromRight (l : List Char) : List Char :=
  if l.length ≤ 3 then l
  else
    groupFromRight (l.take (l.length - 3)) ++ '.' :: l.drop (l.length - 3)
termination_by l.length
decreasing_by
  simp only [List.length_take]
  omega

/-- Modelled from the spec: the `format_currency` contract — "compute
`abs(a)` rounded to two fractional digits; group the integer part into runs
of three digits from the right using `.` as separator; join integer and
fractional parts with `,`; prepend `-` if `a < 0`." -/
def format_currency_spec (amount : ℚ) : String :=
  let cents : ℤ := roundHalfEvenCents |amount|
  let n : ℕ := cents.toNat
  String.mk ((if amount < 0 then ['-'] else []) ++
    (groupFromRight (natDigits (n / 100)) ++ ',' :: twoDigits (n % 100)))

/-- The exact rational value of the double `12.50`. -/
def q12_50 : ℚ := ⟨25, 2, by decide, by decide⟩

/-- The exact rational value of the double `-1234.5`. -/
def qNeg1234_5 : ℚ := ⟨-2469, 2, by decide, by decide⟩

/-- The ledger of the spec's category scenario: exactly the two records
created by `create(Expense, 12.50, "Coffee", "Cafe")` and
`create(Income, 100.00, "Salary", "Work")`. -/
def scenarioLedger : Ledger :=
  (add_transaction_command
    (add_transaction_command [] "Gasto" (.fin q12_50) "Coffee" "Cafe"
      "id1" 0 (.ok ())).state
    "Ingreso" (.fin 100) "Salary" "Work" "id2" 1 (.ok ())).state

/-- The collection invariant that actually holds at every reachable state:
ids are pairwise distinct, no amount is `<= 0` in the float order (positive
whenever comparable; NaN passes the guard), and description and store name
are non-empty after trimming.  The spec's additional sentinel-exclusion
clause is provably not invariant (see the counterexample). -/
def Invariant (st : Ledger) : Prop :=
  (st.map Transaction.id).Nodup ∧
  ∀ t ∈ st, F64.le t.amount (F64.fin 0) = false ∧
    strTrim t.description ≠ "" ∧ strTrim t.store_name ≠ ""

/-- A record violating both the positivity clause and the
sentinel-exclusion clause of the spec's invariant, as created by
`add_transaction_command` with a NaN amount and the sentinel store name. -/
def cexNanSentinelTx : Transaction :=
  ⟨"id2", .Ingreso, .nan, "x", "Todas las Tiendas", 7⟩

/-! ### Helper lemmas -/

theorem applySave_state {α : Type} (x : α) (st : Ledger)
    (sres : Except String Unit) : (applySave x st sres).state = st := by
  cases sres <;> rfl

theorem applySave_saved {α : Type} (x : α) (st : Ledger)
    (sres : Except String Unit) : (applySave x st sres).saved = some st := by
  cases sres <;> rfl

theorem dropWhile_rdropWhile {p : Char → Bool} {m : List Char}
    (hm : m.dropWhile p = m) :
    (List.rdropWhile p m).dropWhile p = List.rdropWhile p m := by
  rw [List.dropWhile_eq_self_iff] at hm ⊢
  intro h0
  obtain ⟨t, ht⟩ := ( List.rdropWhile_prefix p m)
  have hlen : 0 < m.length := by
    rw [← ht, List.length_append]
    omega
  have hget : (List.rdropWhile p m).get ⟨0, h0⟩ = m.get ⟨0, hlen⟩ := by
    simp only [List.get_eq_getElem]
    exact ((List.getElem_of_eq ht.symm hlen).trans
      (List.getElem_append_left h0)).symm
  rw [hget]
  exact hm hlen

theorem trimChars_idem (l : List Char) :
    trimChars (trimChars l) = trimChars l := by
  unfold trimChars
  rw [dropWhile_rdropWhile (List.dropWhile_idempotent _ _),
    List.rdropWhile_idempotent]

theorem strTrim_idem (s : String) : strTrim (strTrim s) = strTrim s := by
  simp only [strTrim, trimChars_idem]

theorem F64.le_zero_false_of_lt {a : F64}
    (h : F64.lt (F64.fin 0) a = true) : F64.le a (F64.fin 0) = false := by
  cases a with
  | nan => simp [F64.lt] at h
  | fin q =>
    simp only [F64.lt, decide_eq_true_eq] at h
    simp only [F64.le, decide_eq_false_iff_not]
    exact not_le.mpr h

theorem updateFirst_none {p : Transaction → Bool}
    {f : Transaction → Transaction} {st : Ledger}
    (h : ∀ t ∈ st, p t = false) : updateFirst p f st = none := by
  induction st with
  | nil => rfl
  | cons t ts ih =>
    have ht := h t (List.mem_cons_self t ts)
    simp [updateFirst, ht, ih fun u hu => h u (List.mem_cons_of_mem _ hu)]

theorem updateFirst_found {p : Transaction → Bool}
    {f : Transaction → Transaction} :
    ∀ (pre : Ledger) (t : Transaction) (post : Ledger),
    (∀ u ∈ pre, p u = false) → p t = true →
    updateFirst p f (pre ++ t :: post) = some (f t, pre ++ f t :: post) := by
  intro pre
  induction pre with
  | nil =>
    intro t post _ ht
    simp [updateFirst, ht]
  | cons u us ih =>
    intro t post hpre ht
    have hu := hpre u (List.mem_cons_self u us)
    have hrec := ih t post (fun v hv => hpre v (List.mem_cons_of_mem _ hv)) ht
    simp [updateFirst, hu, hrec]

theorem charsLe_total (a : List Char) :
    ∀ b : List Char, charsLe a b = true ∨ charsLe b a = true := by
  induction a with
  | nil => intro b; left; rfl
  | cons x xs ih =>
    intro b
    cases b with
    | nil => right; rfl
    | cons y ys =>
      simp only [charsLe]
      rcases ih ys with h | h <;>
        by_cases h1 : x.toNat < y.toNat <;> by_cases h2 : y.toNat < x.toNat <;>
        simp [h1, h2, h]

theorem charsLe_trans {a : List Char} :
    ∀ {b c : List Char}, charsLe a b = true → charsLe b c = true →
      charsLe a c = true := by
  induction a with
  | nil => intro b c _ _; rfl
  | cons x xs ih =>
    intro b c h1 h2
    cases b with
    | nil => simp [charsLe] at h1
    | cons y ys =>
      cases c with
      | nil => simp [charsLe] at h2
      | cons z zs =>
        simp only [charsLe] at h1 h2 ⊢
        split_ifs at h1 h2 ⊢ <;>
          first
            | rfl
            | omega
            | exact h1
            | exact h2
            | exact ih h1 h2

theorem strLe_total (a b : String) : strLe a b = true ∨ strLe b a = true :=
  charsLe_total a.data b.data

theorem strLe_trans {a b c : String} (h1 : strLe a b = true)
    (h2 : strLe b c = true) : strLe a c = true :=
  charsLe_trans h1 h2

theorem insertSorted_perm (x : String) (l : List String) :
    List.Perm (insertSorted x l) (x :: l) := by
  induction l with
  | nil => exact List.Perm.refl _
  | cons y ys ih =>
    by_cases h : strLe x y
    · simp only [insertSorted]
      rw [if_pos h]
    · simp only [insertSorted]
      rw [if_neg h]
      exact (List.Perm.cons y ih).trans (List.Perm.swap x y ys)

theorem mem_insertSorted {x y : String} {l : List String} :
    y ∈ insertSorted x l ↔ y = x ∨ y ∈ l := by
  rw [(insertSorted_perm x l).mem_iff, List.mem_cons]

theorem sorted_insertSorted {x : String} {l : List String}
    (h : List.Sorted (fun a b => strLe a b = true) l) :
    List.Sorted (fun a b => strLe a b = true) (insertSorted x l) := by
  induction l with
  | nil => simp [insertSorted]
  | cons y ys ih =>
    rw [List.sorted_cons] at h
    by_cases hxy : strLe x y
    · simp only [insertSorted]
      rw [if_pos hxy]
      rw [List.sorted_cons]
      refine ⟨?_, List.sorted_cons.mpr h⟩
      intro b hb
      rcases List.mem_cons.mp hb with rfl | hb
      · exact hxy
      · exact strLe_trans hxy (h.1 b hb)
    · simp only [insertSorted]
      rw [if_neg hxy]
      rw [List.sorted_cons]
      refine ⟨?_, ih h.2⟩
      intro b hb
      rcases mem_insertSorted.mp hb with rfl | hb
      · rcases strLe_total b y with hby | hyb
        · exact absurd hby hxy
        · exact hyb
      · exact h.1 b hb

theorem sortStrings_perm (l : List String) : List.Perm (sortStrings l) l := by
  induction l with
  | nil => exact List.Perm.refl _
  | cons x xs ih => exact (insertSorted_perm _ _).trans (List.Perm.cons x ih)

theorem sortStrings_sorted (l : List String) :
    List.Sorted (fun a b => strLe a b = true) (sortStrings l) := by
  induction l with
  | nil => simp [sortStrings]
  | cons x xs ih => exact sorted_insertSorted ih

theorem updateFirst_some {p : Transaction → Bool}
    {f : Transaction → Transaction} :
    ∀ {st : Ledger} {u : Transaction} {st' : Ledger},
    updateFirst p f st = some (u, st') →
    ∃ pre t post, st = pre ++ t :: post ∧ u = f t ∧
      st' = pre ++ f t :: post := by
  intro st
  induction st with
  | nil => intro u st' h; cases h
  | cons t ts ih =>
    intro u st' h
    simp only [updateFirst] at h
    by_cases hp : p t
    · rw [if_pos hp] at h
      obtain ⟨rfl, rfl⟩ := Prod.mk.injEq .. ▸ Option.some.inj h
      exact ⟨[], t, ts, rfl, rfl, rfl⟩
    · rw [if_neg hp] at h
      cases hm : updateFirst p f ts with
      | none => rw [hm] at h; cases h
      | some v =>
        rw [hm] at h
        obtain ⟨u', ts'⟩ := v
        obtain ⟨rfl, rfl⟩ := Prod.mk.injEq .. ▸ Option.some.inj h
        obtain ⟨pre, t0, post, h1, h2, h3⟩ := ih hm
        exact ⟨t :: pre, t0, post, by rw [h1, List.cons_append],
          h2, by rw [h3, List.cons_append]⟩

/-! ### Claim theorems -/

/-- C2, counterexample: with the data file absent, `load` returns the empty
collection, but the initial store state built by `main` is not the empty
ledger — it is the seeded sample transaction. -/
theorem startup_absent_not_empty :
    load_transactions_from_file .absent = .ok [] ∧
    startup_state .absent "seed" 0 = [testTransaction "seed" 0] ∧
    startup_state .absent "seed" 0 ≠ [] :=
  ⟨rfl, by decide, by decide⟩

/-- C2, amended: `load()` returns an empty sequence (not an error) when the
durable file does not exist, and a failed load (read or parse error) falls
back to an empty collection; but `main` then seeds one sample transaction
into any empty collection, so file absence yields a one-element initial
store state (the sample transaction), not an empty ledger. -/
theorem load_absent_empty_then_seeded :
    load_transactions_from_file .absent = .ok [] ∧
    (∀ e, initial_transactions (.readError e) = []) ∧
    (∀ e, initial_transactions (.parsed (.error e)) = []) ∧
    (∀ seedId seedTime, startup_state .absent seedId seedTime
      = [testTransaction seedId seedTime]) ∧
    (∀ e seedId seedTime, startup_state (.readError e) seedId seedTime
      = [testTransaction seedId seedTime]) :=
  ⟨rfl, fun _ => rfl, fun _ => rfl, fun _ _ => rfl, fun _ _ _ => rfl⟩

/-- C10, confirmed: the guard `amount <= 0.0` is false for NaN, so `create`
with a NaN amount (and otherwise valid fields) succeeds and stores a record
whose amount is NaN, and so does `update` on an existing id; NaN is neither
positive nor rejected as non-positive. -/
theorem nan_amount_accepted (st : Ledger) (d sn newId : String) (now : Nat)
    (hd : strTrim d ≠ "") (hs : strTrim sn ≠ "") :
    F64.le F64.nan (F64.fin 0) = false ∧
    F64.lt (F64.fin 0) F64.nan = false ∧
    (add_transaction_command st "Ingreso" F64.nan d sn newId now
        (.ok ())).result
      = .ok ⟨newId, .Ingreso, .nan, strTrim d, strTrim sn, now⟩ ∧
    (add_transaction_command st "Ingreso" F64.nan d sn newId now
        (.ok ())).state
      = st ++ [⟨newId, .Ingreso, .nan, strTrim d, strTrim sn, now⟩] ∧
    (∀ (pre : Ledger) (t : Transaction) (post : Ledger),
      (∀ u ∈ pre, u.id ≠ t.id) →
      (update_transaction_command (pre ++ t :: post) t.id "Ingreso" F64.nan
          d sn (.ok ())).result
        = .ok (updateFields .Ingreso F64.nan (strTrim d) (strTrim sn) t) ∧
      (update_transaction_command (pre ++ t :: post) t.id "Ingreso" F64.nan
          d sn (.ok ())).state
        = pre ++ updateFields .Ingreso F64.nan (strTrim d) (strTrim sn) t
            :: post ∧
      (updateFields .Ingreso F64.nan (strTrim d) (strTrim sn) t).amount
        = F64.nan) := by
  refine ⟨rfl, rfl, ?_, ?_, ?_⟩
  · simp [add_transaction_command, parseTransactionType, F64.le, hd, hs,
      applySave]
  · simp [add_transaction_command, parseTransactionType, F64.le, hd, hs,
      applySave]
  · intro pre t post hpre
    have hfound := @updateFirst_found (fun u => u.id == t.id)
      (updateFields .Ingreso F64.nan (strTrim d) (strTrim sn))
      pre t post
      (fun u hu => beq_eq_false_iff_ne.mpr (hpre u hu))
      (beq_self_eq_true t.id)
    refine ⟨?_, ?_, rfl⟩ <;>
      simp [update_transaction_command, parseTransactionType, F64.le,
        hd, hs, hfound, applySave]

/-- Witness for C10 at a concrete store and inputs. -/
theorem nan_amount_accepted_witness :
    strTrim "x" ≠ "" ∧ strTrim "y" ≠ "" ∧
    (add_transaction_command [] "Ingreso" F64.nan "x" "y" "id9" 3
        (.ok ())).state
      = [⟨"id9", .Ingreso, .nan, strTrim "x", strTrim "y", 3⟩] :=
  ⟨by decide, by decide,
    (nan_amount_accepted [] "x" "y" "id9" 3 (by decide) (by decide)).2.2.2.1⟩

/-- C4, confirmed: for valid inputs (a recognized kind literal, a positive
amount, non-empty trimmed description and category) `create` appends exactly
one record with the freshly generated id, distinct from every prior id, and
returns that record (when the save succeeds); on validation failure it
returns one of the validation errors without mutating state or calling
save. -/
theorem create_appends_one (st : Ledger) (tts : String) (amount : F64)
    (d sn newId : String) (now : Nat) :
    (∀ tt, parseTransactionType tts = some tt →
      F64.lt (F64.fin 0) amount = true →
      strTrim d ≠ "" → strTrim sn ≠ "" →
      newId ∉ st.map Transaction.id →
      (add_transaction_command st tts amount d sn newId now (.ok ())).result
        = .ok ⟨newId, tt, amount, strTrim d, strTrim sn, now⟩ ∧
      (∀ sres, (add_transaction_command st tts amount d sn newId now
          sres).state = st ++ [⟨newId, tt, amount, strTrim d, strTrim sn,
            now⟩]) ∧
      (∀ sres, (add_transaction_command st tts amount d sn newId now
          sres).state.length = st.length + 1) ∧
      get_all_transactions
          (add_transaction_command st tts amount d sn newId now
            (.ok ())).state
        = .ok (st ++ [⟨newId, tt, amount, strTrim d, strTrim sn, now⟩]) ∧
      (∀ t ∈ st, t.id ≠ newId)) ∧
    ((parseTransactionType tts = none ∨ F64.le amount (F64.fin 0) = true ∨
        strTrim d = "" ∨ strTrim sn = "") →
      ∀ sres,
      ((add_transaction_command st tts amount d sn newId now sres).result
          = .error errInvalidType ∨
        (add_transaction_command st tts amount d sn newId now sres).result
          = .error errNonPositive ∨
        (add_transaction_command st tts amount d sn newId now sres).result
          = .error errEmptyFields) ∧
      (add_transaction_command st tts amount d sn newId now sres).state = st ∧
      (add_transaction_command st tts amount d sn newId now sres).saved
        = none) := by
  constructor
  · intro tt hpt hlt hd hs hfresh
    have hle := F64.le_zero_false_of_lt hlt
    refine ⟨?_, fun sres => ?_, fun sres => ?_, ?_, ?_⟩
    · simp [add_transaction_command, hpt, hle, hd, hs, applySave]
    · simp [add_transaction_command, hpt, hle, hd, hs, applySave_state]
    · simp [add_transaction_command, hpt, hle, hd, hs, applySave_state]
    · simp [add_transaction_command, get_all_transactions, hpt, hle, hd, hs,
        applySave_state]
    · intro t ht heq
      exact hfresh (heq ▸ List.mem_map_of_mem Transaction.id ht)
  · intro hbad sres
    rcases hbad with h | h | h | h
    · simp [add_transaction_command, h]
    · cases hpt : parseTransactionType tts with
      | none => simp [add_transaction_command, hpt]
      | some tt => simp [add_transaction_command, hpt, h]
    · cases hpt : parseTransactionType tts with
      | none => simp [add_transaction_command, hpt]
      | some tt =>
        by_cases hle : F64.le amount (F64.fin 0) = true
        · simp [add_transaction_command, hpt, hle]
        · simp [add_transaction_command, hpt, hle, h]
    · cases hpt : parseTransactionType tts with
      | none => simp [add_transaction_command, hpt]
      | some tt =>
        by_cases hle : F64.le amount (F64.fin 0) = true
        · simp [add_transaction_command, hpt, hle]
        · simp [add_transaction_command, hpt, hle, h]

/-- Witness for C4 at a concrete store and inputs. -/
theorem create_appends_one_witness :
    parseTransactionType "Ingreso" = some .Ingreso ∧
    F64.lt (F64.fin 0) (F64.fin 5) = true ∧
    (add_transaction_command [] "Ingreso" (F64.fin 5) "d" "s" "i" 0
        (.ok ())).state
      = [] ++ [⟨"i", .Ingreso, .fin 5, strTrim "d", strTrim "s", 0⟩] :=
  ⟨rfl, by decide,
    ((create_appends_one [] "Ingreso" (F64.fin 5) "d" "s" "i" 0).1 .Ingreso
      rfl (by decide) (by decide) (by decide) (by decide)).2.1 (.ok ())⟩

/-- C6, confirmed: `delete(id)` removes exactly the one record carrying `id`
(ids being unique), leaving all other records unchanged and saving the
shrunk collection; when no record matches it returns the not-found error,
leaves the collection unchanged and does not call save. -/
theorem delete_exactly_one (st : Ledger) (id : String)
    (sres : Except String Unit) :
    (∀ (pre : Ledger) (t : Transaction) (post : Ledger),
      st = pre ++ t :: post → t.id = id → (st.map Transaction.id).Nodup →
      (delete_transaction_command st id sres).state = pre ++ post ∧
      (delete_transaction_command st id sres).state.length + 1
        = st.length ∧
      (delete_transaction_command st id sres).saved = some (pre ++ post) ∧
      (sres = .ok () →
        (delete_transaction_command st id sres).result = .ok ())) ∧
    ((∀ t ∈ st, t.id ≠ id) →
      (delete_transaction_command st id sres).result
        = .error (errTxNotFound id) ∧
      (delete_transaction_command st id sres).state = st ∧
      (delete_transaction_command st id sres).saved = none) := by
  constructor
  · intro pre t post hst hid hnodup
    subst hst
    have hmid : t.id ∉ pre.map Transaction.id ++ post.map Transaction.id := by
      have := hnodup
      simp only [List.map_append, List.map_cons] at this
      exact (List.nodup_cons.mp (List.nodup_middle.mp this)).1
    have hothers : ∀ u ∈ pre ++ post, u.id ≠ id := by
      intro u hu heq
      apply hmid
      rw [← List.map_append]
      exact hid ▸ heq ▸ List.mem_map_of_mem Transaction.id hu
    have hp1 : pre.filter (fun u => u.id != id) = pre :=
      List.filter_eq_self.mpr fun u hu =>
        bne_iff_ne.mpr (hothers u (List.mem_append.mpr (Or.inl hu)))
    have hp2 : post.filter (fun u => u.id != id) = post :=
      List.filter_eq_self.mpr fun u hu =>
        bne_iff_ne.mpr (hothers u (List.mem_append.mpr (Or.inr hu)))
    have hfilter : (pre ++ t :: post).filter (fun u => u.id != id)
        = pre ++ post := by
      rw [List.filter_append, List.filter_cons]
      simp [hid, hp1, hp2]
    have hlen : (pre ++ post).length < (pre ++ t :: post).length := by
      simp only [List.length_append, List.length_cons]
      omega
    have hcmd : delete_transaction_command (pre ++ t :: post) id sres
        = applySave () (pre ++ post) sres := by
      simp only [delete_transaction_command]
      rw [hfilter, if_pos hlen]
    refine ⟨?_, ?_, ?_, ?_⟩
    · rw [hcmd, applySave_state]
    · rw [hcmd, applySave_state]
      simp only [List.length_append, List.length_cons]
      omega
    · rw [hcmd, applySave_saved]
    · intro hok
      subst hok
      rw [hcmd]
      rfl
  · intro hnone
    have hfilter : st.filter (fun u => u.id != id) = st :=
      List.filter_eq_self.mpr fun u hu => bne_iff_ne.mpr (hnone u hu)
    have hcmd : delete_transaction_command st id sres
        = ⟨.error (errTxNotFound id), st, none⟩ := by
      simp only [delete_transaction_command]
      rw [hfilter, if_neg (lt_irrefl _)]
    refine ⟨?_, ?_, ?_⟩ <;> rw [hcmd]

/-- Witness for C6 at a concrete one-record store. -/
theorem delete_exactly_one_witness :
    ([⟨"a", .Ingreso, .fin 5, "d", "s", 0⟩] : Ledger)
        = [] ++ (⟨"a", .Ingreso, .fin 5, "d", "s", 0⟩ : Transaction) :: [] ∧
    (delete_transaction_command [⟨"a", .Ingreso, .fin 5, "d", "s", 0⟩] "a"
        (.ok ())).state = [] ++ [] :=
  ⟨rfl,
    ((delete_exactly_one [⟨"a", .Ingreso, .fin 5, "d", "s", 0⟩] "a"
      (.ok ())).1 [] ⟨"a", .Ingreso, .fin 5, "d", "s", 0⟩ [] rfl rfl
      (by decide)).1⟩

/-- C5, confirmed: with valid inputs, `update` on the record carrying `id`
replaces exactly the mutable fields of that record, preserves its `id` and
`created_at` timestamp, leaves every other record and the length unchanged,
saves, and returns the updated record; on an absent id it returns the
not-found error without mutating or saving. -/
theorem update_preserves_frame (st : Ledger) (id tts : String) (amount : F64)
    (d sn : String) (sres : Except String Unit) (tt : TransactionType)
    (hpt : parseTransactionType tts = some tt)
    (hlt : F64.lt (F64.fin 0) amount = true)
    (hd : strTrim d ≠ "") (hs : strTrim sn ≠ "") :
    (∀ (pre : Ledger) (t : Transaction) (post : Ledger),
      st = pre ++ t :: post → t.id = id → (∀ u ∈ pre, u.id ≠ id) →
      (update_transaction_command st id tts amount d sn sres).state
        = pre ++ updateFields tt amount (strTrim d) (strTrim sn) t :: post ∧
      (update_transaction_command st id tts amount d sn sres).state.length
        = st.length ∧
      (updateFields tt amount (strTrim d) (strTrim sn) t).id = t.id ∧
      (updateFields tt amount (strTrim d) (strTrim sn) t).timestamp
        = t.timestamp ∧
      (updateFields tt amount (strTrim d) (strTrim sn) t).transaction_type
        = tt ∧
      (updateFields tt amount (strTrim d) (strTrim sn) t).amount = amount ∧
      (updateFields tt amount (strTrim d) (strTrim sn) t).description
        = strTrim d ∧
      (updateFields tt amount (strTrim d) (strTrim sn) t).store_name
        = strTrim sn ∧
      (update_transaction_command st id tts amount d sn sres).saved
        = some (pre ++ updateFields tt amount (strTrim d) (strTrim sn) t
            :: post) ∧
      (sres = .ok () →
        (update_transaction_command st id tts amount d sn sres).result
          = .ok (updateFields tt amount (strTrim d) (strTrim sn) t))) ∧
    ((∀ t ∈ st, t.id ≠ id) →
      (update_transaction_command st id tts amount d sn sres).result
        = .error (errTxNotFound id) ∧
      (update_transaction_command st id tts amount d sn sres).state = st ∧
      (update_transaction_command st id tts amount d sn sres).saved
        = none) := by
  have hle := F64.le_zero_false_of_lt hlt
  constructor
  · intro pre t post hst hid hpre
    subst hst
    have hfound := @updateFirst_found (fun u => u.id == id)
      (updateFields tt amount (strTrim d) (strTrim sn)) pre t post
      (fun u hu => beq_eq_false_iff_ne.mpr (hpre u hu))
      (by simp [hid])
    have hcmd : update_transaction_command (pre ++ t :: post) id tts amount
        d sn sres
        = applySave (updateFields tt amount (strTrim d) (strTrim sn) t)
            (pre ++ updateFields tt amount (strTrim d) (strTrim sn) t
              :: post) sres := by
      simp [update_transaction_command, hpt, hle, hd, hs, hfound]
    refine ⟨?_, ?_, rfl, rfl, rfl, rfl, rfl, rfl, ?_, ?_⟩
    · rw [hcmd, applySave_state]
    · rw [hcmd, applySave_state]
      simp
    · rw [hcmd, applySave_saved]
    · intro hok
      subst hok
      rw [hcmd]
      rfl
  · intro hnone
    have hm := @updateFirst_none (fun u => u.id == id)
      (updateFields tt amount (strTrim d) (strTrim sn)) st
      (fun u hu => beq_eq_false_iff_ne.mpr (hnone u hu))
    have hcmd : update_transaction_command st id tts amount d sn sres
        = ⟨.error (errTxNotFound id), st, none⟩ := by
      simp [update_transaction_command, hpt, hle, hd, hs, hm]
    rw [hcmd]
    exact ⟨rfl, rfl, rfl⟩

/-- Witness for C5 on a concrete two-record store. -/
theorem update_preserves_frame_witness :
    parseTransactionType "Gasto" = some .Gasto ∧
    ([⟨"a", .Ingreso, .fin 5, "d", "s", 0⟩,
      ⟨"b", .Ingreso, .fin 7, "e", "u", 1⟩] : Ledger)
      = [⟨"a", .Ingreso, .fin 5, "d", "s", 0⟩]
        ++ (⟨"b", .Ingreso, .fin 7, "e", "u", 1⟩ : Transaction) :: [] ∧
    (update_transaction_command
        [⟨"a", .Ingreso, .fin 5, "d", "s", 0⟩,
         ⟨"b", .Ingreso, .fin 7, "e", "u", 1⟩] "b" "Gasto" (.fin 9)
        "d2" "s2" (.ok ())).state
      = [⟨"a", .Ingreso, .fin 5, "d", "s", 0⟩]
        ++ updateFields .Gasto (.fin 9) (strTrim "d2") (strTrim "s2")
            ⟨"b", .Ingreso, .fin 7, "e", "u", 1⟩ :: [] :=
  ⟨rfl, rfl,
    ((update_preserves_frame
      [⟨"a", .Ingreso, .fin 5, "d", "s", 0⟩,
       ⟨"b", .Ingreso, .fin 7, "e", "u", 1⟩] "b" "Gasto" (.fin 9) "d2" "s2"
      (.ok ()) .Gasto rfl (by decide) (by decide) (by decide)).1
      [⟨"a", .Ingreso, .fin 5, "d", "s", 0⟩]
      ⟨"b", .Ingreso, .fin 7, "e", "u", 1⟩ [] rfl rfl (by decide)).1⟩

/-- Branch shape of `add_transaction_command`: either an error triple
independent of the save outcome, or a persist-after-mutate tail. -/
theorem add_shape (st : Ledger) (tts : String) (amount : F64)
    (d sn newId : String) (now : Nat) :
    (∃ msg s, ∀ sres, add_transaction_command st tts amount d sn newId now
        sres = ⟨.error msg, s, none⟩) ∨
    (∃ x s2, ∀ sres, add_transaction_command st tts amount d sn newId now
        sres = applySave x s2 sres) := by
  cases hpt : parseTransactionType tts with
  | none =>
    exact Or.inl ⟨errInvalidType, st,
      fun sres => by simp [add_transaction_command, hpt]⟩
  | some tt =>
    by_cases hle : F64.le amount (F64.fin 0) = true
    · exact Or.inl ⟨errNonPositive, st,
        fun sres => by simp [add_transaction_command, hpt, hle]⟩
    · by_cases hde : strTrim d = "" ∨ strTrim sn = ""
      · exact Or.inl ⟨errEmptyFields, st,
          fun sres => by simp [add_transaction_command, hpt, hle, hde]⟩
      · exact Or.inr ⟨⟨newId, tt, amount, strTrim d, strTrim sn, now⟩,
          st ++ [⟨newId, tt, amount, strTrim d, strTrim sn, now⟩],
          fun sres => by simp [add_transaction_command, hpt, hle, hde]⟩

/-- Branch shape of `update_transaction_command`. -/
theorem update_shape (st : Ledger) (id tts : String) (amount : F64)
    (d sn : String) :
    (∃ msg s, ∀ sres, update_transaction_command st id tts amount d sn sres
        = ⟨.error msg, s, none⟩) ∨
    (∃ x s2, ∀ sres, update_transaction_command st id tts amount d sn sres
        = applySave x s2 sres) := by
  cases hpt : parseTransactionType tts with
  | none =>
    exact Or.inl ⟨errInvalidType, st,
      fun sres => by simp [update_transaction_command, hpt]⟩
  | some tt =>
    by_cases hle : F64.le amount (F64.fin 0) = true
    · exact Or.inl ⟨errNonPositive, st,
        fun sres => by simp [update_transaction_command, hpt, hle]⟩
    · by_cases hde : strTrim d = "" ∨ strTrim sn = ""
      · exact Or.inl ⟨errEmptyFields, st,
          fun sres => by simp [update_transaction_command, hpt, hle, hde]⟩
      · cases hm : updateFirst (fun t => t.id == id)
            (updateFields tt amount (strTrim d) (strTrim sn)) st with
        | none =>
          exact Or.inl ⟨errTxNotFound id, st,
            fun sres => by
              simp [update_transaction_command, hpt, hle, hde, hm]⟩
        | some v =>
          exact Or.inr ⟨v.1, v.2,
            fun sres => by
              simp [update_transaction_command, hpt, hle, hde, hm]⟩

/-- Branch shape of `delete_transaction_command`. -/
theorem delete_shape (st : Ledger) (id : String) :
    (∃ msg s, ∀ sres, delete_transaction_command st id sres
        = ⟨.error msg, s, none⟩) ∨
    (∃ x s2, ∀ sres, delete_transaction_command st id sres
        = applySave x s2 sres) := by
  by_cases hl : (st.filter (fun t => t.id != id)).length < st.length
  · exact Or.inr ⟨(), st.filter (fun t => t.id != id),
      fun sres => by simp only [delete_transaction_command, if_pos hl]⟩
  · exact Or.inl ⟨errTxNotFound id, st.filter (fun t => t.id != id),
      fun sres => by simp only [delete_transaction_command, if_neg hl]⟩

/-- Branch shape of `rename_store_command`. -/
theorem rename_shape (st : Ledger) (o n : String) :
    (∃ msg s, ∀ sres, rename_store_command st o n sres
        = ⟨.error msg, s, none⟩) ∨
    (∃ x s2, ∀ sres, rename_store_command st o n sres
        = applySave x s2 sres) := by
  by_cases h1 : strTrim o = "" ∨ strTrim n = ""
  · exact Or.inl ⟨errEmptyStoreNames, st,
      fun sres => by simp only [rename_store_command, if_pos h1]⟩
  · by_cases h2 : strTrim o = sentinelStore
    · exact Or.inl ⟨errRenameSentinel, st,
        fun sres => by
          simp only [rename_store_command, if_neg h1, if_pos h2]⟩
    · by_cases h3 : strTrim o = strTrim n
      · exact Or.inl ⟨errSameStoreName, st,
          fun sres => by
            simp only [rename_store_command, if_neg h1, if_neg h2,
              if_pos h3]⟩
      · by_cases h4 : 0 < st.countP (fun t => t.store_name == strTrim o)
        · exact Or.inr ⟨(), st.map (fun t =>
            if t.store_name = strTrim o then
              { t with store_name := strTrim n } else t),
            fun sres => by
              simp only [rename_store_command, if_neg h1, if_neg h2,
                if_neg h3, if_pos h4]⟩
        · exact Or.inl ⟨errStoreNotFoundRename (strTrim o), st.map (fun t =>
            if t.store_name = strTrim o then
              { t with store_name := strTrim n } else t),
            fun sres => by
              simp only [rename_store_command, if_neg h1, if_neg h2,
                if_neg h3, if_neg h4]⟩

/-- Branch shape of `delete_store_command`. -/
theorem delete_store_shape (st : Ledger) (sn : String) :
    (∃ msg s, ∀ sres, delete_store_command st sn sres
        = ⟨.error msg, s, none⟩) ∨
    (∃ x s2, ∀ sres, delete_store_command st sn sres
        = applySave x s2 sres) := by
  by_cases h1 : strTrim sn = ""
  · exact Or.inl ⟨errEmptyStoreName, st,
      fun sres => by simp only [delete_store_command, if_pos h1]⟩
  · by_cases h2 : strTrim sn = sentinelStore
    · exact Or.inl ⟨errDeleteSentinel, st,
        fun sres => by
          simp only [delete_store_command, if_neg h1, if_pos h2]⟩
    · by_cases h3 : (st.filter (fun t => t.store_name != strTrim sn)).length
          < st.length
      · exact Or.inr ⟨(), st.filter (fun t => t.store_name != strTrim sn),
          fun sres => by
            simp only [delete_store_command, if_neg h1, if_neg h2,
              if_pos h3]⟩
      · exact Or.inl ⟨errStoreNotFoundDelete (strTrim sn),
          st.filter (fun t => t.store_name != strTrim sn),
          fun sres => by
            simp only [delete_store_command, if_neg h1, if_neg h2,
              if_neg h3]⟩

/-- A command whose in-memory mutation succeeded (it returns `Ok` when the
save succeeds) forwards a failing save's error while keeping the mutated
state and having attempted the save of exactly that state. -/
theorem save_failure_generic {α : Type} (run : Except String Unit →
    CmdResult α)
    (hshape : (∃ msg s, ∀ sres, run sres = ⟨.error msg, s, none⟩) ∨
      (∃ x s2, ∀ sres, run sres = applySave x s2 sres))
    (e : String) (hok : ∃ v, (run (.ok ())).result = .ok v) :
    (run (.error e)).result = .error e ∧
    (run (.error e)).state = (run (.ok ())).state ∧
    (run (.error e)).saved = some ((run (.error e)).state) := by
  rcases hshape with ⟨msg, s, hrun⟩ | ⟨x, s2, hrun⟩
  · obtain ⟨v, hv⟩ := hok
    rw [hrun] at hv
    cases hv
  · rw [hrun, hrun (.ok ())]
    exact ⟨rfl, rfl, rfl⟩

/-- C3, confirmed for all five mutating commands: when the in-memory
mutation succeeds (the command would return `Ok` on a successful save) but
the save fails, the command returns the save error while the collection
keeps the mutated state — identical to the state after a successful save —
and the attempted snapshot is exactly that state; there is no rollback. -/
theorem save_failure_retains_mutation (st : Ledger) (e : String)
    (tts : String) (amount : F64) (d sn newId : String) (now : Nat)
    (uid did o nw dsn : String) :
    ((∃ v, (add_transaction_command st tts amount d sn newId now
        (.ok ())).result = .ok v) →
      (add_transaction_command st tts amount d sn newId now
          (.error e)).result = .error e ∧
      (add_transaction_command st tts amount d sn newId now
          (.error e)).state
        = (add_transaction_command st tts amount d sn newId now
            (.ok ())).state ∧
      (add_transaction_command st tts amount d sn newId now
          (.error e)).saved
        = some ((add_transaction_command st tts amount d sn newId now
            (.error e)).state)) ∧
    ((∃ v, (update_transaction_command st uid tts amount d sn
        (.ok ())).result = .ok v) →
      (update_transaction_command st uid tts amount d sn
          (.error e)).result = .error e ∧
      (update_transaction_command st uid tts amount d sn (.error e)).state
        = (update_transaction_command st uid tts amount d sn
            (.ok ())).state ∧
      (update_transaction_command st uid tts amount d sn (.error e)).saved
        = some ((update_transaction_command st uid tts amount d sn
            (.error e)).state)) ∧
    ((∃ v, (delete_transaction_command st did (.ok ())).result = .ok v) →
      (delete_transaction_command st did (.error e)).result = .error e ∧
      (delete_transaction_command st did (.error e)).state
        = (delete_transaction_command st did (.ok ())).state ∧
      (delete_transaction_command st did (.error e)).saved
        = some ((delete_transaction_command st did (.error e)).state)) ∧
    ((∃ v, (rename_store_command st o nw (.ok ())).result = .ok v) →
      (rename_store_command st o nw (.error e)).result = .error e ∧
      (rename_store_command st o nw (.error e)).state
        = (rename_store_command st o nw (.ok ())).state ∧
      (rename_store_command st o nw (.error e)).saved
        = some ((rename_store_command st o nw (.error e)).state)) ∧
    ((∃ v, (delete_store_command st dsn (.ok ())).result = .ok v) →
      (delete_store_command st dsn (.error e)).result = .error e ∧
      (delete_store_command st dsn (.error e)).state
        = (delete_store_command st dsn (.ok ())).state ∧
      (delete_store_command st dsn (.error e)).saved
        = some ((delete_store_command st dsn (.error e)).state)) :=
  ⟨fun hok => save_failure_generic _
      (add_shape st tts amount d sn newId now) e hok,
   fun hok => save_failure_generic _
      (update_shape st uid tts amount d sn) e hok,
   fun hok => save_failure_generic _ (delete_shape st did) e hok,
   fun hok => save_failure_generic _ (rename_shape st o nw) e hok,
   fun hok => save_failure_generic _ (delete_store_shape st dsn) e hok⟩

/-- Witness for C3: a concrete create whose save fails keeps the appended
record in memory and reports the save error. -/
theorem save_failure_retains_mutation_witness :
    (∃ v, (add_transaction_command [] "Ingreso" (F64.fin 5) "d" "s" "i" 0
        (.ok ())).result = .ok v) ∧
    ((add_transaction_command [] "Ingreso" (F64.fin 5) "d" "s" "i" 0
        (.error "boom")).result = .error "boom" ∧
      (add_transaction_command [] "Ingreso" (F64.fin 5) "d" "s" "i" 0
          (.error "boom")).state
        = (add_transaction_command [] "Ingreso" (F64.fin 5) "d" "s" "i" 0
            (.ok ())).state ∧
      (add_transaction_command [] "Ingreso" (F64.fin 5) "d" "s" "i" 0
          (.error "boom")).saved
        = some ((add_transaction_command [] "Ingreso" (F64.fin 5) "d" "s"
            "i" 0 (.error "boom")).state)) :=
  ⟨⟨⟨"i", .Ingreso, .fin 5, "d", "s", 0⟩, by decide⟩,
    (save_failure_retains_mutation [] "boom" "Ingreso" (F64.fin 5) "d" "s"
      "i" 0 "u" "x" "o" "n" "z").1
      ⟨⟨"i", .Ingreso, .fin 5, "d", "s", 0⟩, by decide⟩⟩

/-- C7, confirmed: `rename_category` trims both names and rejects — without
mutating or saving — empty names, the sentinel as old name, and equal
trimmed names; otherwise it renames exactly the records whose category
equals the trimmed old name (all at their original positions, with no other
field or record changed), the matched count equals the pre-call category
count of the old name, zero matches yield the not-found error without
mutation or save, and a positive count saves exactly the renamed
collection. -/
theorem rename_category_behaviour (st : Ledger) (o nw : String)
    (sres : Except String Unit) :
    (strTrim o = "" ∨ strTrim nw = "" →
      (rename_store_command st o nw sres).result
        = .error errEmptyStoreNames ∧
      (rename_store_command st o nw sres).state = st ∧
      (rename_store_command st o nw sres).saved = none) ∧
    (¬(strTrim o = "" ∨ strTrim nw = "") → strTrim o = sentinelStore →
      (rename_store_command st o nw sres).result
        = .error errRenameSentinel ∧
      (rename_store_command st o nw sres).state = st ∧
      (rename_store_command st o nw sres).saved = none) ∧
    (¬(strTrim o = "" ∨ strTrim nw = "") → strTrim o ≠ sentinelStore →
      strTrim o = strTrim nw →
      (rename_store_command st o nw sres).result
        = .error errSameStoreName ∧
      (rename_store_command st o nw sres).state = st ∧
      (rename_store_command st o nw sres).saved = none) ∧
    (¬(strTrim o = "" ∨ strTrim nw = "") → strTrim o ≠ sentinelStore →
      strTrim o ≠ strTrim nw →
      st.countP (fun t => t.store_name == strTrim o)
        = get_store_info_command st (strTrim o) ∧
      (rename_store_command st o nw sres).state.length = st.length ∧
      (∀ i, ∀ h : i < st.length,
        (st[i].store_name = strTrim o →
          (rename_store_command st o nw sres).state[i]?
            = some { st[i] with store_name := strTrim nw }) ∧
        (st[i].store_name ≠ strTrim o →
          (rename_store_command st o nw sres).state[i]? = some st[i])) ∧
      (get_store_info_command st (strTrim o) = 0 →
        (rename_store_command st o nw sres).result
          = .error (errStoreNotFoundRename (strTrim o)) ∧
        (rename_store_command st o nw sres).state = st ∧
        (rename_store_command st o nw sres).saved = none) ∧
      (0 < get_store_info_command st (strTrim o) →
        (rename_store_command st o nw sres).saved
          = some ((rename_store_command st o nw sres).state) ∧
        (sres = .ok () →
          (rename_store_command st o nw sres).result = .ok ()))) := by
  refine ⟨?_, ?_, ?_, ?_⟩
  · intro h1
    have hcmd : rename_store_command st o nw sres
        = ⟨.error errEmptyStoreNames, st, none⟩ := by
      simp only [rename_store_command]
      rw [if_pos h1]
    rw [hcmd]
    exact ⟨rfl, rfl, rfl⟩
  · intro h1 h2
    have hcmd : rename_store_command st o nw sres
        = ⟨.error errRenameSentinel, st, none⟩ := by
      simp only [rename_store_command]
      rw [if_neg h1, if_pos h2]
    rw [hcmd]
    exact ⟨rfl, rfl, rfl⟩
  · intro h1 h2 h3
    have hcmd : rename_store_command st o nw sres
        = ⟨.error errSameStoreName, st, none⟩ := by
      simp only [rename_store_command]
      rw [if_neg h1, if_neg h2, if_pos h3]
    rw [hcmd]
    exact ⟨rfl, rfl, rfl⟩
  · intro h1 h2 h3
    have hmap : (rename_store_command st o nw sres).state
        = st.map (fun t => if t.store_name = strTrim o then
            { t with store_name := strTrim nw } else t) := by
      by_cases h4 : 0 < st.countP (fun t => t.store_name == strTrim o)
      · simp only [rename_store_command, if_neg h1, if_neg h2, if_neg h3,
          if_pos h4, applySave_state]
      · simp only [rename_store_command, if_neg h1, if_neg h2, if_neg h3,
          if_neg h4]
    refine ⟨rfl, ?_, ?_, ?_, ?_⟩
    · rw [hmap, List.length_map]
    · intro i h
      have hi : (rename_store_command st o nw sres).state[i]?
          = some (if st[i].store_name = strTrim o then
              { st[i] with store_name := strTrim nw } else st[i]) := by
        rw [hmap, List.getElem?_map, List.getElem?_eq_getElem h]
        rfl
      constructor
      · intro hmatch
        rw [hi, if_pos hmatch]
      · intro hmatch
        rw [hi, if_neg hmatch]
    · intro h0
      have h0' : st.countP (fun t => t.store_name == strTrim o) = 0 := h0
      have hall : ∀ t ∈ st, ¬ (t.store_name == strTrim o) = true :=
        List.countP_eq_zero.mp h0'
      have h4 : ¬ 0 < st.countP (fun t => t.store_name == strTrim o) := by
        rw [h0']
        exact lt_irrefl 0
      have hid : st.map (fun t => if t.store_name = strTrim o then
          { t with store_name := strTrim nw } else t) = st := by
        have : ∀ t ∈ st, (fun t => if t.store_name = strTrim o then
            { t with store_name := strTrim nw } else t) t = id t := by
          intro t ht
          have := hall t ht
          simp only [beq_iff_eq] at this
          simp [this]
        rw [List.map_congr_left this, List.map_id]
      have hcmd : rename_store_command st o nw sres
          = ⟨.error (errStoreNotFoundRename (strTrim o)),
              st.map (fun t => if t.store_name = strTrim o then
                { t with store_name := strTrim nw } else t), none⟩ := by
        simp only [rename_store_command]
        rw [if_neg h1, if_neg h2, if_neg h3, if_neg h4]
      rw [hcmd]
      exact ⟨rfl, hid, rfl⟩
    · intro h4
      have h4' : 0 < st.countP (fun t => t.store_name == strTrim o) := h4
      have hcmd : rename_store_command st o nw sres
          = applySave () (st.map (fun t => if t.store_name = strTrim o then
              { t with store_name := strTrim nw } else t)) sres := by
        simp only [rename_store_command]
        rw [if_neg h1, if_neg h2, if_neg h3, if_pos h4']
      constructor
      · rw [hcmd, applySave_saved, applySave_state]
      · intro hok
        subst hok
        rw [hcmd]
        rfl

/-- Witness for C7: a concrete rename over a one-record store. -/
theorem rename_category_behaviour_witness :
    ¬(strTrim "s" = "" ∨ strTrim "s2" = "") ∧ strTrim "s" ≠ sentinelStore ∧
    strTrim "s" ≠ strTrim "s2" ∧
    0 < get_store_info_command
        ([⟨"a", .Ingreso, .fin 5, "d", "s", 0⟩] : Ledger) (strTrim "s") ∧
    (rename_store_command [⟨"a", .Ingreso, .fin 5, "d", "s", 0⟩] "s" "s2"
        (.ok ())).saved
      = some ((rename_store_command [⟨"a", .Ingreso, .fin 5, "d", "s", 0⟩]
          "s" "s2" (.ok ())).state) :=
  ⟨by decide, by decide, by decide, by decide,
    (((rename_category_behaviour [⟨"a", .Ingreso, .fin 5, "d", "s", 0⟩]
      "s" "s2" (.ok ())).2.2.2 (by decide) (by decide)
      (by decide)).2.2.2.2 (by decide)).1⟩

/-- C8, counterexample: on the two-record scenario store, the sorted
category list is NOT sentinel-first — the source sentinel "Todas las
Tiendas" sorts between "Cafe" and "Work" (and the spec's translated literal
"All Categories" does not occur at all). -/
theorem list_categories_scenario_counterexample :
    get_unique_stores scenarioLedger
      = ["Cafe", "Todas las Tiendas", "Work"] ∧
    get_unique_stores scenarioLedger
      ≠ ["Todas las Tiendas", "Cafe", "Work"] ∧
    get_unique_stores scenarioLedger ≠ ["All Categories", "Cafe", "Work"] :=
  ⟨by decide, by decide, by decide⟩

/-- C8, amended: `list_categories` returns the distinct category values plus
the sentinel, sorted in the byte-lexicographic string order and without
duplicates; `category_counts` counts records per category, so the scenario
store yields counts Cafe ↦ 1, Work ↦ 1 (0 elsewhere) and category list
["Cafe", "Todas las Tiendas", "Work"] — the sentinel in sorted position,
not first. -/
theorem list_categories_sorted_scenario :
    (∀ st : Ledger,
      List.Sorted (fun a b => strLe a b = true) (get_unique_stores st) ∧
      (get_unique_stores st).Nodup ∧
      ∀ s, s ∈ get_unique_stores st ↔
        s = sentinelStore ∨ s ∈ st.map Transaction.store_name) ∧
    (∀ s, get_store_info_command scenarioLedger s
      = if s = "Cafe" then 1 else if s = "Work" then 1 else 0) ∧
    get_unique_stores scenarioLedger
      = ["Cafe", "Todas las Tiendas", "Work"] := by
  refine ⟨?_, ?_, by decide⟩
  · intro st
    refine ⟨sortStrings_sorted _, ?_, ?_⟩
    · exact (sortStrings_perm _).nodup_iff.mpr (List.nodup_dedup _)
    · intro s
      rw [get_unique_stores, (sortStrings_perm _).mem_iff, List.mem_dedup,
        List.mem_cons]
  · intro s
    by_cases h1 : s = "Cafe"
    · subst h1
      decide
    · by_cases h2 : s = "Work"
      · subst h2
        decide
      · have hsc : scenarioLedger
            = [⟨"id1", .Gasto, .fin q12_50, "Coffee", "Cafe", 0⟩,
               ⟨"id2", .Ingreso, .fin 100, "Salary", "Work", 1⟩] := by
          decide
        have e1 : (("Cafe" : String) == s) = false :=
          beq_eq_false_iff_ne.mpr (Ne.symm h1)
        have e2 : (("Work" : String) == s) = false :=
          beq_eq_false_iff_ne.mpr (Ne.symm h2)
        rw [hsc, if_neg h1, if_neg h2]
        simp [get_store_info_command, List.countP_cons, e1, e2]

theorem revLoop_append (r : List Char) :
    ∀ (acc tail : List Char) (i : Nat),
      revLoop (acc ++ tail) i r = revLoop acc i r ++ tail := by
  induction r with
  | nil => intro acc tail i; rfl
  | cons c rest ih =>
    intro acc tail i
    simp only [revLoop]
    by_cases h : 0 < i ∧ i % 3 = 0
    · rw [if_pos h, if_pos h]
      have := ih (c :: '.' :: acc) tail (i + 1)
      simpa using this
    · rw [if_neg h, if_neg h]
      have := ih (c :: acc) tail (i + 1)
      simpa using this

theorem revLoop_periodic (r : List Char) :
    ∀ (acc : List Char) (i : Nat), 1 ≤ i →
      revLoop acc (i + 3) r = revLoop acc i r := by
  induction r with
  | nil => intro acc i _; rfl
  | cons c rest ih =>
    intro acc i hi
    simp only [revLoop]
    have hcond : (0 < i + 3 ∧ (i + 3) % 3 = 0) ↔ (0 < i ∧ i % 3 = 0) := by
      constructor
      · rintro ⟨h3, h⟩
        exact ⟨hi, by omega⟩
      · rintro ⟨ha, hb⟩
        exact ⟨by omega, by omega⟩
    by_cases h : 0 < i ∧ i % 3 = 0
    · rw [if_pos h, if_pos (hcond.mpr h)]
      exact ih _ (i + 1) (by omega)
    · rw [if_neg h, if_neg (fun hc => h (hcond.mp hc))]
      exact ih _ (i + 1) (by omega)

theorem revLoop_boundary (r : List Char) (hne : r ≠ []) (acc : List Char) :
    revLoop acc 3 r = revLoop [] 0 r ++ '.' :: acc := by
  cases r with
  | nil => exact absurd rfl hne
  | cons c rest =>
    show revLoop (c :: '.' :: acc) 4 rest = revLoop [] 0 (c :: rest)
      ++ '.' :: acc
    calc revLoop (c :: '.' :: acc) 4 rest
        = revLoop (c :: '.' :: acc) 1 rest :=
          revLoop_periodic rest (c :: '.' :: acc) 1 le_rfl
      _ = revLoop [c] 1 rest ++ '.' :: acc := by
          simpa using revLoop_append rest [c] ('.' :: acc) 1
      _ = revLoop [] 0 (c :: rest) ++ '.' :: acc := rfl

theorem groupChars_eq_aux :
    ∀ (n : Nat) (l : List Char), l.length ≤ n →
      groupChars l = groupFromRight l := by
  intro n
  induction n with
  | zero =>
    intro l hl
    have hnil : l = [] := List.length_eq_zero.mp (Nat.le_zero.mp hl)
    subst hnil
    rw [groupFromRight]
    rfl
  | succ n ih =>
    intro l hl
    by_cases h3 : l.length ≤ 3
    · rcases l with _ | ⟨a, _ | ⟨b, _ | ⟨c, _ | ⟨d, tl⟩⟩⟩⟩
      · rw [groupFromRight]
        rfl
      · rw [groupFromRight]
        rfl
      · rw [groupFromRight]
        rfl
      · rw [groupFromRight]
        rfl
      · simp only [List.length_cons] at h3
        omega
    · push_neg at h3
      have hk3 : 3 < l.length := h3
      set k := l.length - 3 with hk
      have hsplit : l.take k ++ l.drop k = l := List.take_append_drop k l
      have hdlen : (l.drop k).length = 3 := by
        rw [List.length_drop]
        omega
      obtain ⟨x, y, z, hxyz⟩ := List.length_eq_three.mp hdlen
      have htlen : (l.take k).length = k := by
        rw [List.length_take]
        omega
      have htne : l.take k ≠ [] := by
        intro h0
        rw [h0] at htlen
        simp at htlen
        omega
      have hrev : l.reverse = z :: y :: x :: (l.take k).reverse := by
        conv_lhs => rw [← hsplit]
        rw [List.reverse_append, hxyz]
        rfl
      have h1 : groupChars l = revLoop [x, y, z] 3 (l.take k).reverse := by
        rw [groupChars, hrev]
        rfl
      have hrne : (l.take k).reverse ≠ [] := by
        simpa using htne
      have h2 : revLoop [x, y, z] 3 (l.take k).reverse
          = groupChars (l.take k) ++ '.' :: [x, y, z] :=
        revLoop_boundary _ hrne [x, y, z]
      have hkn : (l.take k).length ≤ n := by
        rw [htlen]
        omega
      have hgr : groupFromRight l
          = groupFromRight (l.take k) ++ '.' :: l.drop k := by
        rw [groupFromRight]
        rw [if_neg (by omega)]
      rw [h1, h2, ih _ hkn, hgr, hxyz]

theorem groupChars_eq_groupFromRight (l : List Char) :
    groupChars l = groupFromRight l :=
  groupChars_eq_aux l.length l le_rfl

/-- C9, confirmed: for every amount, the currency formatter agrees with the
spec's contract — absolute value rounded to two fractional digits, the
integer digits grouped in threes from the right with `.`, joined to the
two-digit fraction with `,`, and `-` prepended exactly when the amount is
negative — and it renders the two scenario values as required. -/
theorem format_currency_renders :
    (∀ a : ℚ, format_currency_es_ea_command a = format_currency_spec a) ∧
    format_currency_es_ea_command qNeg1234_5 = "-1.234,50" ∧
    format_currency_es_ea_command 0 = "0,00" := by
  refine ⟨?_, by decide, by decide⟩
  intro a
  simp only [format_currency_es_ea_command, format_currency_spec,
    groupChars_eq_groupFromRight]
  by_cases h : a < 0
  · simp [h]
  · simp [h]

theorem bool_eq_false_of_not {b : Bool} (h : ¬ b = true) : b = false := by
  cases b
  · rfl
  · exact absurd rfl h

theorem invariant_filter {st : Ledger} (p : Transaction → Bool)
    (hinv : Invariant st) : Invariant (st.filter p) := by
  obtain ⟨hnd, hmem⟩ := hinv
  constructor
  · exact List.Nodup.sublist ((List.filter_sublist st).map Transaction.id)
      hnd
  · intro t ht
    exact hmem t (List.mem_of_mem_filter ht)

theorem invariant_add (st : Ledger) (tts : String) (amount : F64)
    (d sn newId : String) (now : Nat) (sres : Except String Unit)
    (hinv : Invariant st) (hfresh : newId ∉ st.map Transaction.id) :
    Invariant
      (add_transaction_command st tts amount d sn newId now sres).state := by
  cases hpt : parseTransactionType tts with
  | none => simpa [add_transaction_command, hpt] using hinv
  | some tt =>
    by_cases hle : F64.le amount (F64.fin 0) = true
    · simpa [add_transaction_command, hpt, hle] using hinv
    · by_cases hde : strTrim d = "" ∨ strTrim sn = ""
      · simpa [add_transaction_command, hpt, hle, hde] using hinv
      · have hstate : (add_transaction_command st tts amount d sn newId now
            sres).state
            = st ++ [⟨newId, tt, amount, strTrim d, strTrim sn, now⟩] := by
          simp [add_transaction_command, hpt, hle, hde, applySave_state]
        rw [hstate]
        obtain ⟨hnd, hmem⟩ := hinv
        push_neg at hde
        constructor
        · rw [List.map_append]
          rw [List.nodup_append]
          refine ⟨hnd, List.nodup_singleton _, ?_⟩
          intro a ha hb
          simp only [List.map_cons, List.map_nil, List.mem_singleton] at hb
          subst hb
          exact hfresh ha
        · intro t ht
          rcases List.mem_append.mp ht with h | h
          · exact hmem t h
          · simp only [List.mem_singleton] at h
            subst h
            exact ⟨bool_eq_false_of_not hle,
              by rw [strTrim_idem]; exact hde.1,
              by rw [strTrim_idem]; exact hde.2⟩

theorem invariant_update (st : Ledger) (id tts : String) (amount : F64)
    (d sn : String) (sres : Except String Unit) (hinv : Invariant st) :
    Invariant
      (update_transaction_command st id tts amount d sn sres).state := by
  cases hpt : parseTransactionType tts with
  | none => simpa [update_transaction_command, hpt] using hinv
  | some tt =>
    by_cases hle : F64.le amount (F64.fin 0) = true
    · simpa [update_transaction_command, hpt, hle] using hinv
    · by_cases hde : strTrim d = "" ∨ strTrim sn = ""
      · simpa [update_transaction_command, hpt, hle, hde] using hinv
      · cases hm : updateFirst (fun t => t.id == id)
            (updateFields tt amount (strTrim d) (strTrim sn)) st with
        | none =>
          simpa [update_transaction_command, hpt, hle, hde, hm] using hinv
        | some v =>
          obtain ⟨u, st2⟩ := v
          obtain ⟨pre, t0, post, hst, hu, hst2⟩ := updateFirst_some hm
          have hstate : (update_transaction_command st id tts amount d sn
              sres).state = st2 := by
            simp [update_transaction_command, hpt, hle, hde, hm,
              applySave_state]
          rw [hstate, hst2]
          subst hst
          obtain ⟨hnd, hmem⟩ := hinv
          push_neg at hde
          constructor
          · have heq : (pre ++ updateFields tt amount (strTrim d)
                (strTrim sn) t0 :: post).map Transaction.id
                = (pre ++ t0 :: post).map Transaction.id := by
              simp [List.map_append, updateFields]
            rw [heq]
            exact hnd
          · intro t ht
            rcases List.mem_append.mp ht with h | h
            · exact hmem t (List.mem_append.mpr (Or.inl h))
            · rcases List.mem_cons.mp h with h | h
              · subst h
                refine ⟨bool_eq_false_of_not hle, ?_, ?_⟩
                · show strTrim (strTrim d) ≠ ""
                  rw [strTrim_idem]
                  exact hde.1
                · show strTrim (strTrim sn) ≠ ""
                  rw [strTrim_idem]
                  exact hde.2
              · exact hmem t
                  (List.mem_append.mpr (Or.inr (List.mem_cons_of_mem _ h)))

theorem invariant_delete (st : Ledger) (id : String)
    (sres : Except String Unit) (hinv : Invariant st) :
    Invariant (delete_transaction_command st id sres).state := by
  by_cases hl : (st.filter (fun t => t.id != id)).length < st.length
  · have hstate : (delete_transaction_command st id sres).state
        = st.filter (fun t => t.id != id) := by
      simp only [delete_transaction_command, if_pos hl, applySave_state]
    rw [hstate]
    exact invariant_filter _ hinv
  · have hstate : (delete_transaction_command st id sres).state
        = st.filter (fun t => t.id != id) := by
      simp only [delete_transaction_command, if_neg hl]
    rw [hstate]
    exact invariant_filter _ hinv

theorem invariant_rename (st : Ledger) (o n : String)
    (sres : Except String Unit) (hinv : Invariant st) :
    Invariant (rename_store_command st o n sres).state := by
  by_cases h1 : strTrim o = "" ∨ strTrim n = ""
  · have hstate : (rename_store_command st o n sres).state = st := by
      simp only [rename_store_command]
      rw [if_pos h1]
    rw [hstate]
    exact hinv
  · by_cases h2 : strTrim o = sentinelStore
    · have hstate : (rename_store_command st o n sres).state = st := by
        simp only [rename_store_command]
        rw [if_neg h1, if_pos h2]
      rw [hstate]
      exact hinv
    · by_cases h3 : strTrim o = strTrim n
      · have hstate : (rename_store_command st o n sres).state = st := by
          simp only [rename_store_command]
          rw [if_neg h1, if_neg h2, if_pos h3]
        rw [hstate]
        exact hinv
      · have hstate : (rename_store_command st o n sres).state
            = st.map (fun t => if t.store_name = strTrim o then
                { t with store_name := strTrim n } else t) := by
          by_cases h4 : 0 < st.countP (fun t => t.store_name == strTrim o)
          · simp only [rename_store_command]
            rw [if_neg h1, if_neg h2, if_neg h3, if_pos h4,
              applySave_state]
          · simp only [rename_store_command]
            rw [if_neg h1, if_neg h2, if_neg h3, if_neg h4]
        rw [hstate]
        obtain ⟨hnd, hmem⟩ := hinv
        push_neg at h1
        constructor
        · have heq : (st.map (fun t => if t.store_name = strTrim o then
              { t with store_name := strTrim n } else t)).map
                Transaction.id = st.map Transaction.id := by
            rw [List.map_map]
            apply List.map_congr_left
            intro t ht
            by_cases hsn : t.store_name = strTrim o <;>
              simp [Function.comp, hsn]
          rw [heq]
          exact hnd
        · intro t' ht'
          obtain ⟨t, ht, rfl⟩ := List.mem_map.mp ht'
          by_cases hsn : t.store_name = strTrim o
          · rw [if_pos hsn]
            exact ⟨(hmem t ht).1, (hmem t ht).2.1,
              by rw [strTrim_idem]; exact h1.2⟩
          · rw [if_neg hsn]
            exact hmem t ht

theorem invariant_delete_store (st : Ledger) (sn : String)
    (sres : Except String Unit) (hinv : Invariant st) :
    Invariant (delete_store_command st sn sres).state := by
  by_cases h1 : strTrim sn = ""
  · have hstate : (delete_store_command st sn sres).state = st := by
      simp only [delete_store_command]
      rw [if_pos h1]
    rw [hstate]
    exact hinv
  · by_cases h2 : strTrim sn = sentinelStore
    · have hstate : (delete_store_command st sn sres).state = st := by
        simp only [delete_store_command]
        rw [if_neg h1, if_pos h2]
      rw [hstate]
      exact hinv
    · by_cases h3 : (st.filter
          (fun t => t.store_name != strTrim sn)).length < st.length
      · have hstate : (delete_store_command st sn sres).state
            = st.filter (fun t => t.store_name != strTrim sn) := by
          simp only [delete_store_command]
          rw [if_neg h1, if_neg h2, if_pos h3, applySave_state]
        rw [hstate]
        exact invariant_filter _ hinv
      · have hstate : (delete_store_command st sn sres).state
            = st.filter (fun t => t.store_name != strTrim sn) := by
          simp only [delete_store_command]
          rw [if_neg h1, if_neg h2, if_neg h3]
        rw [hstate]
        exact invariant_filter _ hinv

theorem invariant_startup (seedId : String) (seedTime : Nat) :
    Invariant (startup_state .absent seedId seedTime) := by
  constructor
  · simp [startup_state, initial_transactions, load_transactions_from_file,
      testTransaction]
  · intro t ht
    simp only [startup_state, initial_transactions,
      load_transactions_from_file, List.isEmpty_nil, if_pos,
      List.mem_singleton] at ht
    subst ht
    refine ⟨rfl, ?_, ?_⟩
    · show strTrim "Transacción inicial de prueba (Rust)" ≠ ""
      decide
    · show strTrim "Tienda de Prueba (Rust)" ≠ ""
      decide

/-- C1, amended theorem: at every state reachable from the bootstrap startup
state (file absent), all record ids are pairwise distinct (under the
fresh-uuid oracle), no amount compares `<= 0` in the float order (so every
comparable amount is positive, though NaN is storable), and description and
category are non-empty after trimming.  The spec's further clause that the
sentinel category never occurs in a record is dropped: it is refuted by the
counterexample, since neither `create` nor `rename_category` rejects the
sentinel as a new value. -/
theorem reachable_invariant (seedId : String) (seedTime : Nat) (st : Ledger)
    (h : Reachable (startup_state .absent seedId seedTime) st) :
    Invariant st := by
  induction h with
  | refl => exact invariant_startup seedId seedTime
  | create tts amount d sn newId now sres h hfresh ih =>
    exact invariant_add _ tts amount d sn newId now sres ih hfresh
  | update id tts amount d sn sres h ih =>
    exact invariant_update _ id tts amount d sn sres ih
  | delete id sres h ih => exact invariant_delete _ id sres ih
  | rename o n sres h ih => exact invariant_rename _ o n sres ih
  | deleteStore sn sres h ih => exact invariant_delete_store _ sn sres ih

/-- Witness for C1's amended theorem at the concrete bootstrap state. -/
theorem reachable_invariant_witness :
    Invariant (startup_state .absent "seed" 0) :=
  reachable_invariant "seed" 0 _ Reachable.refl

/-- C1, counterexample: a single `create` from the bootstrap startup state
stores a record whose category IS the reserved sentinel and whose amount is
NaN (hence not `> 0`) — the claimed invariant fails at a reachable state. -/
theorem reachable_sentinel_nan_counterexample :
    Reachable (startup_state .absent "seed" 0)
      [testTransaction "seed" 0, cexNanSentinelTx] ∧
    cexNanSentinelTx.store_name = sentinelStore ∧
    cexNanSentinelTx.amount = F64.nan ∧
    F64.lt (F64.fin 0) cexNanSentinelTx.amount = false := by
  refine ⟨?_, rfl, rfl, rfl⟩
  have h : Reachable (startup_state .absent "seed" 0)
      (add_transaction_command (startup_state .absent "seed" 0) "Ingreso"
        F64.nan "x" "Todas las Tiendas" "id2" 7 (.ok ())).state :=
    Reachable.create "Ingreso" F64.nan "x" "Todas las Tiendas" "id2" 7
      (.ok ()) Reachable.refl (by decide)
  have he : (add_transaction_command (startup_state .absent "seed" 0)
      "Ingreso" F64.nan "x" "Todas las Tiendas" "id2" 7 (.ok ())).state
      = [testTransaction "seed" 0, cexNanSentinelTx] := by decide
  exact he ▸ h

end Contabilidad
